import Mathlib

/-!
Shallow embedding of the chat-store database client
(`src/api/src/api/clients/postgres.py`, class `PostgresChatClient`) and
proofs about its CRUD contract, error handling, identifier generation and
availability-polling backoff.

Modelling conventions:
* Timestamps are `Nat` microseconds since the Unix epoch (the precision of
  `datetime.utcnow()`); `isoformat` renders them exactly as
  `datetime.isoformat()` does for UTC-naive datetimes.
* The two tables are lists of rows; the `(chat_id, id)` primary key of the
  messages table and the `ON DELETE CASCADE` foreign key are modelled inside
  the operations, mirroring the constraints declared by `init`.
* Each SQL statement an operation executes may be made to raise an
  "unexpected store error" through an explicit Boolean flag, standing for
  the driver exception the Python code catches or propagates.
* JSON metadata is modelled by `JValue` (strings are lists of Unicode
  code points); `json_dumps`/`json_loads` model the `json.dumps`/`json.loads`
  blob round trip on that fragment.
* Delays in `await_up` are exact rationals; the Python float schedule
  1.0, 1.5, 2.25, ... is binary-exact at every step taken, so the rational
  model computes the very same numbers.
-/

/-- A JSON string, as the sequence of its Unicode code points. -/
abbrev JStr := List Nat

/-- JSON values storable in the `metadata` columns (the structured-document
blob fragment used by the client: objects, arrays, strings, integers,
booleans and null). -/
inductive JValue where
  | null
  | bool (b : Bool)
  | int (n : Int)
  | str (s : JStr)
  | arr (elems : List JValue)
  | obj (fields : List (JStr × JValue))

/-- A row of the `chats` table: `id VARCHAR(36) PRIMARY KEY`,
`created_at`/`updated_at TIMESTAMP NOT NULL`, `metadata JSONB NOT NULL`. -/
structure ChatRow where
  id : String
  created_at : Nat
  updated_at : Nat
  metadata : JValue

/-- A row of the `messages` table: `id BIGINT`, `chat_id` referencing
`chats(id) ON DELETE CASCADE`, `role`, `content`, `created_at`, `metadata`,
`PRIMARY KEY (chat_id, id)`. -/
structure MessageRow where
  id : Nat
  chat_id : String
  role : String
  content : String
  created_at : Nat
  metadata : JValue

/-- The persistent store state: the two tables created by `init`. -/
structure DBState where
  chats : List ChatRow
  messages : List MessageRow

/-- Errors surfaced by the client: the `ValueError` of `add_message` for a
missing parent chat, the primary-key violation the database raises on a
duplicate `(chat_id, id)`, an unexpected store error raised by the named
statement, and the fatal exception of `await_up` after exhausting retries. -/
inductive DBError where
  | notFound (chat_id : String)
  | uniqueViolation (chat_id : String) (id : Nat)
  | storeError (stmt : String)
  | unavailable (attempts : Nat)
deriving Repr, DecidableEq

/-- Row lookup underlying `SELECT ... FROM chats WHERE id = %s`. -/
def findChat (σ : DBState) (chat_id : String) : Option ChatRow :=
  σ.chats.find? (fun c => c.id == chat_id)

/-- Proleptic-Gregorian civil date from a day count since 1970-01-01
(the days-to-date conversion `datetime` performs). Returns (year, month, day). -/
def civilFromDays (z : Nat) : Nat × Nat × Nat :=
  let era := (z + 719468) / 146097
  let doe := (z + 719468) % 146097
  let yoe := (doe - doe / 1460 + doe / 36524 - doe / 146096) / 365
  let y := yoe + era * 400
  let doy := doe - (365 * yoe + yoe / 4 - yoe / 100)
  let mp := (5 * doy + 2) / 153
  let d := doy - (153 * mp + 2) / 5 + 1
  let m := if mp < 10 then mp + 3 else mp - 9
  (if m ≤ 2 then y + 1 else y, m, d)

/-- Decimal rendering of `n` left-padded with zeros to width `w`. -/
def padNum (w n : Nat) : String :=
  let s := toString n
  String.mk (List.replicate (w - s.length) '0') ++ s

/-- `datetime.isoformat()` for a UTC-naive datetime holding `t` microseconds
since the epoch: `YYYY-MM-DDTHH:MM:SS[.ffffff]`, the fractional part omitted
when the microsecond field is zero. -/
def isoformat (t : Nat) : String :=
  let secs := t / 1000000
  let usec := t % 1000000
  let days := secs / 86400
  let rem := secs % 86400
  let ymd := civilFromDays days
  padNum 4 ymd.1 ++ "-" ++ padNum 2 ymd.2.1 ++ "-" ++ padNum 2 ymd.2.2 ++ "T" ++
    padNum 2 (rem / 3600) ++ ":" ++ padNum 2 (rem % 3600 / 60) ++ ":" ++
    padNum 2 (rem % 60) ++ (if usec = 0 then "" else "." ++ padNum 6 usec)

/-- `int(now.timestamp() * 1000)`: the message id is the timestamp truncated
to whole milliseconds (`now` is in microseconds). -/
def message_id_of (now : Nat) : Nat := now / 1000

/-- The wire shape `get_chat` returns: timestamps converted to ISO-8601
strings, metadata decoded into a structured value. -/
structure ChatData where
  id : String
  created_at : String
  updated_at : String
  metadata : JValue

/-- The wire shape of one element of `get_messages`' result. -/
structure MessageData where
  id : Nat
  chat_id : String
  role : String
  content : String
  created_at : String
  metadata : JValue

/-- `get_chat`: selects the row by id; absent rows give `none`, and any
unexpected store error (`queryFails`) is caught, logged and collapsed into
`none` as well — the function never raises. -/
def get_chat (σ : DBState) (chat_id : String) (queryFails : Bool) :
    Option ChatData :=
  if queryFails then none
  else
    match findChat σ chat_id with
    | none => none
    | some row =>
        some ⟨row.id, isoformat row.created_at, isoformat row.updated_at, row.metadata⟩

/-- The `UPDATE chats SET updated_at = %s WHERE id = %s` statement. -/
def updateChatTimestamp (chats : List ChatRow) (chat_id : String) (now : Nat) :
    List ChatRow :=
  chats.map (fun c => if c.id == chat_id then { c with updated_at := now } else c)

/-- `add_message`: looks the chat up through `get_chat` (whose store errors
collapse to absence), raises the `ValueError` "chat not found" if absent,
then — each statement autocommitting — updates the parent chat's
`updated_at` to `now` and inserts the message row with
`id = int(now.timestamp() * 1000)`; the database rejects the insert when
`(chat_id, id)` already exists.  Returns `(message_id, now.isoformat())`
and the resulting store state. -/
def add_message (σ : DBState) (chat_id role content : String) (metadata : JValue)
    (now : Nat) (lookupFails updateFails insertFails : Bool) :
    Except DBError (Nat × String) × DBState :=
  match get_chat σ chat_id lookupFails with
  | none => (.error (.notFound chat_id), σ)
  | some _ =>
      if updateFails then (.error (.storeError "update"), σ)
      else
        let σ₁ : DBState := ⟨updateChatTimestamp σ.chats chat_id now, σ.messages⟩
        let message_id := message_id_of now
        if insertFails then (.error (.storeError "insert"), σ₁)
        else if σ₁.messages.any (fun m => m.chat_id == chat_id && m.id == message_id) then
          (.error (.uniqueViolation chat_id message_id), σ₁)
        else
          (.ok (message_id, isoformat now),
            ⟨σ₁.chats, σ₁.messages ++ [⟨message_id, chat_id, role, content, now, metadata⟩]⟩)

/-- Comparison `ORDER BY created_at ASC` sorts messages by. -/
def createdLE (a b : MessageRow) : Prop := a.created_at ≤ b.created_at

instance : DecidableRel createdLE := fun a b => Nat.decLe a.created_at b.created_at

instance : IsTotal MessageRow createdLE := ⟨fun a b => Nat.le_total a.created_at b.created_at⟩

instance : IsTrans MessageRow createdLE := ⟨fun _ _ _ => Nat.le_trans⟩

/-- The row set `SELECT ... FROM messages WHERE chat_id = %s ORDER BY
created_at ASC` produces. -/
def messagesFor (σ : DBState) (chat_id : String) : List MessageRow :=
  List.insertionSort createdLE (σ.messages.filter (fun m => m.chat_id == chat_id))

/-- Wire conversion of one message row: `created_at` to ISO-8601, metadata
decoded. -/
def msgToWire (m : MessageRow) : MessageData :=
  ⟨m.id, m.chat_id, m.role, m.content, isoformat m.created_at, m.metadata⟩

/-- `get_messages`: returns the chat's messages ascending by `created_at`;
an unexpected store error is logged and re-raised.  The source first calls
`await_up` (modelled separately); the model takes the store as reachable,
the case `await_up`'s own contract covers. -/
def get_messages (σ : DBState) (chat_id : String) (queryFails : Bool) :
    Except DBError (List MessageData) :=
  if queryFails then .error (.storeError "select messages")
  else .ok ((messagesFor σ chat_id).map msgToWire)

/-- `delete_chat`: after the `await_up` readiness wait (modelled
separately), looks the chat up through `get_chat` (store errors collapse to
absence), returns `false` without side effects if absent;
otherwise deletes the chat row — messages cascade via the foreign key —
and returns whether a row was deleted. An unexpected store error raised by
the DELETE itself is logged and re-raised. -/
def delete_chat (σ : DBState) (chat_id : String) (lookupFails deleteFails : Bool) :
    Except DBError Bool × DBState :=
  match get_chat σ chat_id lookupFails with
  | none => (.ok false, σ)
  | some _ =>
      if deleteFails then (.error (.storeError "delete"), σ)
      else
        let remaining := σ.chats.filter (fun c => !(c.id == chat_id))
        let rows_deleted := σ.chats.length - remaining.length
        (.ok (decide (0 < rows_deleted)),
          ⟨remaining, σ.messages.filter (fun m => !(m.chat_id == chat_id))⟩)

/-- One backoff step: `delay = min(max_delay, delay * 1.5)` (Python `min`
returns its first argument on ties). -/
def backoffNext (max_delay delay : ℚ) : ℚ :=
  if max_delay ≤ delay * (3 / 2) then max_delay else delay * (3 / 2)

/-- The retry loop of `await_up`: attempts are numbered from 1; each failed
probe sleeps the current delay and grows it by the capped 1.5 factor.
Returns whether a probe succeeded, the list of slept delays, and how many
probes were issued. -/
def awaitLoop (probe : Nat → Bool) (max_delay : ℚ) :
    Nat → Nat → ℚ → Bool × List ℚ × Nat
  | 0, _, _ => (false, [], 0)
  | fuel + 1, attempt, delay =>
      if probe attempt then (true, [], 1)
      else
        let rest := awaitLoop probe max_delay fuel (attempt + 1) (backoffNext max_delay delay)
        (rest.1, delay :: rest.2.1, rest.2.2 + 1)

/-- Observable outcome of one `await_up` call: the result (or the fatal
"not available after N attempts" error), the readiness flag after the call,
the delays slept, and the number of liveness probes issued. -/
structure AwaitOutcome where
  result : Except DBError Unit
  ready : Bool
  sleeps : List ℚ
  probes : Nat
deriving Repr

/-- `await_up`: returns immediately when readiness was already observed
(`isReady`, the cached process-lifetime flag), otherwise probes up to
`max_retries` times with exponential backoff capped at `max_delay`,
caching readiness on success and raising after exhausting all retries. -/
def await_up (isReady : Bool) (probe : Nat → Bool) (max_retries : Nat)
    (initial_delay max_delay : ℚ) : AwaitOutcome :=
  if isReady then ⟨.ok (), true, [], 0⟩
  else
    match awaitLoop probe max_delay max_retries 1 initial_delay with
    | (true, sleeps, probes) => ⟨.ok (), true, sleeps, probes⟩
    | (false, sleeps, probes) => ⟨.error (.unavailable max_retries), false, sleeps, probes⟩

/-- Referential integrity of a store state: every message's `chat_id`
references an existing chat (the foreign-key constraint). -/
def WellFormed (σ : DBState) : Prop :=
  ∀ m ∈ σ.messages, ∃ c ∈ σ.chats, c.id = m.chat_id

instance (σ : DBState) : Decidable (WellFormed σ) := by
  unfold WellFormed; infer_instance

/-- Whitespace skipped by the JSON decoder (space, tab, newline, CR). -/
def isWs (c : Nat) : Bool :=
  decide (c = 32) || decide (c = 9) || decide (c = 10) || decide (c = 13)

/-- Drop leading JSON whitespace. -/
def skipWs : List Nat → List Nat
  | [] => []
  | c :: rest => if isWs c then skipWs rest else c :: rest

/-- ASCII decimal digit test. -/
def isDigitCode (c : Nat) : Bool := decide (48 ≤ c) && decide (c ≤ 57)

/-- Lowercase hexadecimal digit for a value below 16. -/
def hexDigit (d : Nat) : Nat := if d < 10 then 48 + d else 87 + d

/-- Four-digit lowercase hex rendering used by the `\uXXXX` escapes. -/
def hex4 (n : Nat) : List Nat :=
  [hexDigit (n / 4096 % 16), hexDigit (n / 256 % 16), hexDigit (n / 16 % 16),
    hexDigit (n % 16)]

/-- Value of one hexadecimal digit character. -/
def hexVal (c : Nat) : Option Nat :=
  if 48 ≤ c ∧ c ≤ 57 then some (c - 48)
  else if 97 ≤ c ∧ c ≤ 102 then some (c - 87)
  else if 65 ≤ c ∧ c ≤ 70 then some (c - 55)
  else none

/-- Code point denoted by a single-character escape (`\" \\ \/ \b \f \n \r \t`). -/
def escapeCodeVal (e : Nat) : Option Nat :=
  if e = 34 then some 34
  else if e = 92 then some 92
  else if e = 47 then some 47
  else if e = 98 then some 8
  else if e = 116 then some 9
  else if e = 110 then some 10
  else if e = 102 then some 12
  else if e = 114 then some 13
  else none

/-- A valid Unicode scalar value: below 0x110000 and not a surrogate. -/
def validCp (c : Nat) : Bool :=
  decide (c < 1114112) && !(decide (55296 ≤ c) && decide (c ≤ 57343))

/-- All code points of the string are Unicode scalar values. -/
def validStr (s : JStr) : Bool := s.all validCp

/-- `json.dumps` escaping of one character (`ensure_ascii` default): named
escapes for the usual control characters, `\uXXXX` for other control and all
non-ASCII characters, surrogate pairs beyond the basic plane. -/
def escapeChar (c : Nat) : List Nat :=
  if c = 34 then [92, 34]
  else if c = 92 then [92, 92]
  else if c = 8 then [92, 98]
  else if c = 9 then [92, 116]
  else if c = 10 then [92, 110]
  else if c = 12 then [92, 102]
  else if c = 13 then [92, 114]
  else if c < 32 then 92 :: 117 :: hex4 c
  else if c ≤ 126 then [c]
  else if c < 65536 then 92 :: 117 :: hex4 c
  else 92 :: 117 :: hex4 (55296 + (c - 65536) / 1024) ++
    92 :: 117 :: hex4 (56320 + (c - 65536) % 1024)

/-- Escaped body of a JSON string literal. -/
def escapeString (s : JStr) : List Nat :=
  s.foldr (fun c acc => escapeChar c ++ acc) []

/-- Decimal digit characters of `n`, most significant first. -/
def encodeNat (n : Nat) : List Nat :=
  if n = 0 then [48]
  else ((Nat.digits 10 n).reverse.map (fun d => 48 + d))

/-- Decimal rendering of an integer, `-` prefixed when negative. -/
def encodeInt (i : Int) : List Nat :=
  if i < 0 then 45 :: encodeNat i.natAbs else encodeNat i.natAbs

mutual

/-- `json.dumps` with its default separators `', '` and `': '`, as the list
of code points of the emitted text. -/
def json_dumps : JValue → List Nat
  | .null => [110, 117, 108, 108]
  | .bool true => [116, 114, 117, 101]
  | .bool false => [102, 97, 108, 115, 101]
  | .int i => encodeInt i
  | .str s => 34 :: escapeString s ++ [34]
  | .arr xs => 91 :: dumpsElems xs ++ [93]
  | .obj kvs => 123 :: dumpsFields kvs ++ [125]

/-- Array elements joined by `', '`. -/
def dumpsElems : List JValue → List Nat
  | [] => []
  | [x] => json_dumps x
  | x :: y :: t => json_dumps x ++ 44 :: 32 :: dumpsElems (y :: t)

/-- Object fields `"key": value` joined by `', '`. -/
def dumpsFields : List (JStr × JValue) → List Nat
  | [] => []
  | [(k, v)] => 34 :: escapeString k ++ 34 :: 58 :: 32 :: json_dumps v
  | (k, v) :: f :: t =>
      34 :: escapeString k ++ 34 :: 58 :: 32 :: json_dumps v ++
        44 :: 32 :: dumpsFields (f :: t)

end

mutual

/-- Validity of a JSON value: every string in it consists of Unicode scalar
values (what a Python `str` that round-trips can hold). -/
def validJ : JValue → Bool
  | .null => true
  | .bool _ => true
  | .int _ => true
  | .str s => validStr s
  | .arr xs => validElems xs
  | .obj kvs => validFields kvs

/-- Validity of a list of array elements. -/
def validElems : List JValue → Bool
  | [] => true
  | x :: t => validJ x && validElems t

/-- Validity of a list of object fields. -/
def validFields : List (JStr × JValue) → Bool
  | [] => true
  | (k, v) :: t => validStr k && validJ v && validFields t

end

/-- Greedy decimal-digit scan, accumulating the parsed value. -/
def parseDigits (acc : Nat) : List Nat → Nat × List Nat
  | [] => (acc, [])
  | c :: rest =>
      if isDigitCode c then parseDigits (acc * 10 + (c - 48)) rest
      else (acc, c :: rest)

mutual

/-- Body of a JSON string literal after the opening quote: plain characters
until the closing quote, escapes handed to `parseEscape`.  Returns the
decoded code points and the input after the closing quote. -/
def parseStringBody : List Nat → Option (JStr × List Nat)
  | [] => none
  | c :: rest =>
      if c = 34 then some ([], rest)
      else if c = 92 then parseEscape rest
      else Option.map (fun p => (c :: p.1, p.2)) (parseStringBody rest)
termination_by l => 2 * l.length
decreasing_by all_goals (simp [List.length_cons]; try omega)

/-- The character(s) after a backslash: `\uXXXX` handed on, the named
single-character escapes decoded directly. -/
def parseEscape : List Nat → Option (JStr × List Nat)
  | [] => none
  | e :: rest2 =>
      if e = 117 then parseUEscape rest2
      else
        match escapeCodeVal e with
        | some ec => Option.map (fun p => (ec :: p.1, p.2)) (parseStringBody rest2)
        | none => none
termination_by l => 2 * l.length + 1
decreasing_by all_goals (simp [List.length_cons]; try omega)

/-- The four hex digits of a `\uXXXX` escape; a high surrogate looks for a
following low surrogate the way Python's decoder does. -/
def parseUEscape : List Nat → Option (JStr × List Nat)
  | a :: b :: c2 :: d :: rest3 =>
      match hexVal a, hexVal b, hexVal c2, hexVal d with
      | some ha, some hb, some hc, some hd =>
          let h := ha * 4096 + hb * 256 + hc * 16 + hd
          if 55296 ≤ h ∧ h ≤ 56319 then parseLowSurrogate h rest3
          else Option.map (fun p => (h :: p.1, p.2)) (parseStringBody rest3)
      | _, _, _, _ => none
  | _ => none
termination_by l => 2 * l.length
decreasing_by all_goals (simp [List.length_cons]; try omega)

/-- After a high surrogate `h`: combine with an immediately following
`\uXXXX` low surrogate into one supplementary code point, else keep the
lone `h`. -/
def parseLowSurrogate (h : Nat) : List Nat → Option (JStr × List Nat)
  | e2 :: u2 :: a2 :: b2 :: c3 :: d2 :: rest4 =>
      if e2 = 92 ∧ u2 = 117 then
        match hexVal a2, hexVal b2, hexVal c3, hexVal d2 with
        | some la, some lb, some lc, some ld =>
            let l := la * 4096 + lb * 256 + lc * 16 + ld
            if 56320 ≤ l ∧ l ≤ 57343 then
              Option.map
                (fun p => ((65536 + (h - 55296) * 1024 + (l - 56320)) :: p.1, p.2))
                (parseStringBody rest4)
            else
              Option.map (fun p => (h :: p.1, p.2))
                (parseStringBody (e2 :: u2 :: a2 :: b2 :: c3 :: d2 :: rest4))
        | _, _, _, _ =>
            Option.map (fun p => (h :: p.1, p.2))
              (parseStringBody (e2 :: u2 :: a2 :: b2 :: c3 :: d2 :: rest4))
      else
        Option.map (fun p => (h :: p.1, p.2))
          (parseStringBody (e2 :: u2 :: a2 :: b2 :: c3 :: d2 :: rest4))
  | other => Option.map (fun p => (h :: p.1, p.2)) (parseStringBody other)
termination_by l => 2 * l.length + 1
decreasing_by all_goals (simp [List.length_cons]; try omega)

end

mutual

/-- JSON value parser with a recursion budget: skips leading whitespace and
dispatches on the first character (literals, string, array, object, signed
integer). -/
def parseValue : Nat → List Nat → Option (JValue × List Nat)
  | 0, _ => none
  | fuel + 1, input =>
      match skipWs input with
      | [] => none
      | c :: rest =>
          if c = 110 then
            match rest with
            | 117 :: 108 :: 108 :: r => some (.null, r)
            | _ => none
          else if c = 116 then
            match rest with
            | 114 :: 117 :: 101 :: r => some (.bool true, r)
            | _ => none
          else if c = 102 then
            match rest with
            | 97 :: 108 :: 115 :: 101 :: r => some (.bool false, r)
            | _ => none
          else if c = 34 then
            Option.map (fun p => (JValue.str p.1, p.2)) (parseStringBody rest)
          else if c = 91 then
            match skipWs rest with
            | [] => none
            | c2 :: r2 =>
                if c2 = 93 then some (.arr [], r2)
                else Option.map (fun p => (JValue.arr p.1, p.2))
                  (parseElems fuel (c2 :: r2))
          else if c = 123 then
            match skipWs rest with
            | [] => none
            | c2 :: r2 =>
                if c2 = 125 then some (.obj [], r2)
                else Option.map (fun p => (JValue.obj p.1, p.2))
                  (parseFields fuel (c2 :: r2))
          else if c = 45 then
            match rest with
            | d :: _ =>
                if isDigitCode d then
                  let pr := parseDigits 0 rest
                  some (.int (-(pr.1 : Int)), pr.2)
                else none
            | [] => none
          else if isDigitCode c then
            let pr := parseDigits 0 (c :: rest)
            some (.int (pr.1 : Int), pr.2)
          else none

/-- One-or-more comma-separated array elements followed by `]`. -/
def parseElems : Nat → List Nat → Option (List JValue × List Nat)
  | 0, _ => none
  | fuel + 1, input =>
      match parseValue fuel input with
      | none => none
      | some (v, r) =>
          match skipWs r with
          | [] => none
          | c :: r2 =>
              if c = 44 then Option.map (fun p => (v :: p.1, p.2)) (parseElems fuel r2)
              else if c = 93 then some ([v], r2)
              else none

/-- One-or-more comma-separated `"key": value` fields followed by `}`. -/
def parseFields : Nat → List Nat → Option (List (JStr × JValue) × List Nat)
  | 0, _ => none
  | fuel + 1, input =>
      match skipWs input with
      | [] => none
      | c :: rest =>
          if c = 34 then
            match parseStringBody rest with
            | none => none
            | some (k, r) =>
                match skipWs r with
                | [] => none
                | c2 :: r2 =>
                    if c2 = 58 then
                      match parseValue fuel r2 with
                      | none => none
                      | some (v, r3) =>
                          match skipWs r3 with
                          | [] => none
                          | c3 :: r4 =>
                              if c3 = 44 then
                                Option.map (fun p => ((k, v) :: p.1, p.2))
                                  (parseFields fuel r4)
                              else if c3 = 125 then some ([(k, v)], r4)
                              else none
                    else none
          else none

end

/-- `json.loads` on the modelled fragment: parse one value with a budget the
input length always covers, and require only whitespace to remain. -/
def json_loads (s : List Nat) : Option JValue :=
  match parseValue (s.length + 1) s with
  | some (v, rest) => if skipWs rest = [] then some v else none
  | none => none

mutual

/-- Recursion budget a `parseValue` call needs for this value. -/
def jdepth : JValue → Nat
  | .null => 1
  | .bool _ => 1
  | .int _ => 1
  | .str _ => 1
  | .arr xs => 1 + edepth xs
  | .obj kvs => 1 + fdepth kvs

/-- Recursion budget a `parseElems` call needs for these elements. -/
def edepth : List JValue → Nat
  | [] => 0
  | [x] => 1 + jdepth x
  | x :: y :: t => 1 + max (jdepth x) (edepth (y :: t))

/-- Recursion budget a `parseFields` call needs for these fields. -/
def fdepth : List (JStr × JValue) → Nat
  | [] => 0
  | [(_, v)] => 1 + jdepth v
  | (_, v) :: f :: t => 1 + max (jdepth v) (fdepth (f :: t))

end


/-- The head of the remaining input is not a decimal digit (so a parsed
integer literal ends exactly where its rendering ends). -/
def headNotDigit : List Nat → Bool
  | [] => true
  | c :: _ => !(isDigitCode c)

def exampleMetadata : JValue :=
  .obj [([116, 111, 112, 105, 99], .str [99, 97, 102, 233, 32, 128512]),
    ([99, 111, 117, 110, 116], .int (-42)),
    ([116, 97, 103, 115], .arr [.null, .bool true, .bool false, .str [10, 9, 34, 92]]),
    ([110, 101, 115, 116], .obj [])]

/-- An example store state with one chat and no messages, used by witnesses. -/
def oneChatState : DBState := ⟨[⟨"chat-1", 1000000, 1000000, JValue.null⟩], []⟩

/-- A chat found by `findChat` keeps its id and appears updated (with the
same metadata and `created_at`) after `updateChatTimestamp`. -/
theorem find?_updateChatTimestamp (chats : List ChatRow) (cid : String) (now : Nat)
    (c : ChatRow) (h : chats.find? (fun c => c.id == cid) = some c) :
    (updateChatTimestamp chats cid now).find? (fun c => c.id == cid) =
      some { c with updated_at := now } := by
  induction chats with
  | nil => simp [List.find?] at h
  | cons a l ih =>
      unfold updateChatTimestamp at ih ⊢
      by_cases ha : (a.id == cid) = true
      · simp only [List.find?, ha] at h
        cases h
        simp [List.find?, ha]
      · rw [Bool.not_eq_true] at ha
        simp only [List.find?, ha] at h
        simp only [List.map_cons, List.find?, ha, if_false, Bool.false_eq_true]
        exact ih h

/-- C1: for every chat id that does not identify an existing chat,
`add_message` fails with the "chat not found" error and performs no writes —
the resulting store state (both the chats and the messages table) is exactly
the input state. -/
theorem add_message_missing_chat_no_writes (σ : DBState)
    (chat_id role content : String) (metadata : JValue) (now : Nat)
    (h : findChat σ chat_id = none) :
    add_message σ chat_id role content metadata now false false false =
      (.error (.notFound chat_id), σ) := by
  simp [add_message, get_chat, h]

/-- Witness for C1 at a concrete input: the empty store has no chat "c". -/
theorem add_message_missing_chat_no_writes_witness :
    add_message ⟨[], []⟩ "c" "user" "hi" JValue.null 1700000000000000 false false false =
      (.error (.notFound "c"), ⟨[], []⟩) :=
  add_message_missing_chat_no_writes ⟨[], []⟩ "c" "user" "hi" JValue.null
    1700000000000000 rfl

/-- C4: `get_chat` never raises — it is a total function into `Option`; when
the chat is absent it returns the not-found sentinel `none`, and when the
underlying query raises an unexpected store error the call still returns
`none` instead of propagating the exception. -/
theorem get_chat_collapses_to_none (σ : DBState) (chat_id : String)
    (queryFails : Bool)
    (h : queryFails = true ∨ findChat σ chat_id = none) :
    get_chat σ chat_id queryFails = none := by
  rcases h with h | h
  · simp [get_chat, h]
  · cases queryFails <;> simp [get_chat, h]

/-- Witness for C4 at concrete inputs: an absent chat, and a failing query
on a present chat, both collapse to `none`. -/
theorem get_chat_collapses_to_none_witness :
    get_chat oneChatState "missing" false = none ∧
    get_chat oneChatState "chat-1" true = none :=
  ⟨get_chat_collapses_to_none oneChatState "missing" false (Or.inr rfl),
   get_chat_collapses_to_none oneChatState "chat-1" true (Or.inl rfl)⟩

/-- C2: `delete_chat` returns `true` exactly when a row was deleted: on a
non-existent id it returns `false` and the store state is unchanged, and on
an existing id it returns `true`, removing the chat row and (by the cascade
of the foreign key) exactly the messages of that chat. -/
theorem delete_chat_true_iff_row_deleted (σ : DBState) (chat_id : String) :
    (findChat σ chat_id = none → delete_chat σ chat_id false false = (.ok false, σ)) ∧
    (∀ c, findChat σ chat_id = some c →
      delete_chat σ chat_id false false =
        (.ok true,
          ⟨σ.chats.filter (fun c => !(c.id == chat_id)),
           σ.messages.filter (fun m => !(m.chat_id == chat_id))⟩)) := by
  constructor
  · intro h
    simp [delete_chat, get_chat, h]
  · intro c hc
    have hc' : σ.chats.find? (fun c => c.id == chat_id) = some c := hc
    have hmem : c ∈ σ.chats := List.mem_of_find?_eq_some hc'
    have hpc : (c.id == chat_id) = true := by
      have := List.find?_some hc'
      simpa using this
    have hlt : (σ.chats.filter (fun c => !(c.id == chat_id))).length < σ.chats.length :=
      List.length_filter_lt_length_iff_exists.mpr ⟨c, hmem, by simp [hpc]⟩
    simp only [delete_chat, get_chat, if_false, Bool.false_eq_true, hc]
    simp [Nat.sub_pos_of_lt hlt]

/-- Witness for C2 at concrete inputs: deleting a missing chat from the
one-chat store, and deleting its actual chat. -/
theorem delete_chat_true_iff_row_deleted_witness :
    delete_chat oneChatState "missing" false false = (.ok false, oneChatState) ∧
    delete_chat oneChatState "chat-1" false false = (.ok true, ⟨[], []⟩) := by
  constructor
  · exact (delete_chat_true_iff_row_deleted oneChatState "missing").1 rfl
  · have h := (delete_chat_true_iff_row_deleted oneChatState "chat-1").2
      ⟨"chat-1", 1000000, 1000000, JValue.null⟩ rfl
    simpa [oneChatState] using h

/-- C5 counterexample: when the underlying store raises an unexpected error
during `delete_chat`'s initial chat lookup (on a store that does contain the
chat), the operation does not re-raise — the inner `get_chat` collapses the
error to absence and `delete_chat` returns `.ok false`, converting the store
error into a false result. -/
theorem delete_chat_swallows_lookup_error :
    delete_chat oneChatState "chat-1" true false = (.ok false, oneChatState) := rfl

/-- C5 (amended): an unexpected store error raised by one of the operation's
own statements — the messages SELECT of `get_messages`, the DELETE of
`delete_chat`, the UPDATE or INSERT of `add_message` — is re-raised to the
caller rather than converted into a sentinel or false/empty result. -/
theorem store_errors_in_own_statements_reraised (σ : DBState)
    (chat_id role content : String) (metadata : JValue) (now : Nat) :
    get_messages σ chat_id true = .error (.storeError "select messages") ∧
    (∀ c, findChat σ chat_id = some c →
      delete_chat σ chat_id false true = (.error (.storeError "delete"), σ)) ∧
    (∀ c, findChat σ chat_id = some c →
      (add_message σ chat_id role content metadata now false true false).1 =
        .error (.storeError "update")) ∧
    (∀ c, findChat σ chat_id = some c →
      (add_message σ chat_id role content metadata now false false true).1 =
        .error (.storeError "insert")) := by
  refine ⟨rfl, ?_, ?_, ?_⟩
  · intro c hc
    simp [delete_chat, get_chat, hc]
  · intro c hc
    simp [add_message, get_chat, hc]
  · intro c hc
    simp [add_message, get_chat, hc]

/-- Witness for C5's amended theorem at concrete inputs. -/
theorem store_errors_in_own_statements_reraised_witness :
    get_messages oneChatState "chat-1" true = .error (.storeError "select messages") ∧
    delete_chat oneChatState "chat-1" false true =
      (.error (.storeError "delete"), oneChatState) ∧
    (add_message oneChatState "chat-1" "user" "hi" JValue.null 2000000 false true false).1 =
      .error (.storeError "update") ∧
    (add_message oneChatState "chat-1" "user" "hi" JValue.null 2000000 false false true).1 =
      .error (.storeError "insert") := by
  have h := store_errors_in_own_statements_reraised oneChatState "chat-1" "user" "hi"
    JValue.null 2000000
  exact ⟨h.1, h.2.1 ⟨"chat-1", 1000000, 1000000, JValue.null⟩ rfl,
    h.2.2.1 ⟨"chat-1", 1000000, 1000000, JValue.null⟩ rfl,
    h.2.2.2 ⟨"chat-1", 1000000, 1000000, JValue.null⟩ rfl⟩

/-- C3: evaluating `add_message` at the failing boundary input — two messages
appended to the same chat within the same millisecond (here at 400 µs and
900 µs past the same millisecond 1700000000000).  Both calls compute the
same message id `int(now.timestamp() * 1000) = 1700000000000`, so the first
insert succeeds and the second violates the `(chat_id, id)` primary key and
fails, contradicting "both inserts succeed with distinct ids". -/
theorem add_message_same_millisecond_pk_violation :
    (add_message oneChatState "chat-1" "user" "hi" JValue.null
        1700000000000400 false false false).1 =
      .ok (1700000000000, "2023-11-14T22:13:20.000400") ∧
    (add_message
        (add_message oneChatState "chat-1" "user" "hi" JValue.null
          1700000000000400 false false false).2
        "chat-1" "assistant" "hello" JValue.null
        1700000000000900 false false false).1 =
      .error (.uniqueViolation "chat-1" 1700000000000) := ⟨rfl, rfl⟩

/-- C6: against a store whose liveness probe fails on attempts 1 and 2 and
succeeds on attempt 3, `await_up` with the default policy returns
successfully having slept 1.0 s then 1.5 s (each subsequent delay the
previous one times 1.5, capped at the maximum) after issuing 3 probes, and
sets the cached readiness flag; any later call made with the cached flag set
returns immediately, sleeping never and issuing no probe at all. -/
theorem await_up_third_attempt_backoff_and_cache :
    await_up false (fun attempt => decide (3 ≤ attempt)) 30 1 10 =
      ⟨.ok (), true, [1, 3 / 2], 3⟩ ∧
    ∀ probe : Nat → Bool, await_up true probe 30 1 10 = ⟨.ok (), true, [], 0⟩ := by
  constructor
  · norm_num [await_up, awaitLoop, backoffNext]
  · intro probe
    rfl

/-- Witness for C6 at a concrete second-call probe. -/
theorem await_up_third_attempt_backoff_and_cache_witness :
    await_up true (fun _ => false) 30 1 10 = ⟨.ok (), true, [], 0⟩ :=
  await_up_third_attempt_backoff_and_cache.2 (fun _ => false)

/-- C7 counterexample: with the default policy (30 retries, 1.0 s initial
delay, 10.0 s cap) and every probe failing, the total time `await_up` sleeps
is exactly 8345/32 = 260.78125 seconds — more than 250 s, hence not roughly
170 seconds — before raising the "store unavailable" error. -/
theorem await_up_total_sleep_not_roughly_170 :
    ((await_up false (fun _ => false) 30 1 10).sleeps).sum = 8345 / 32 ∧
    (250 : ℚ) < ((await_up false (fun _ => false) 30 1 10).sleeps).sum ∧
    (await_up false (fun _ => false) 30 1 10).result =
      .error (.unavailable 30) := by
  refine ⟨?_, ?_, rfl⟩ <;> norm_num [await_up, awaitLoop, backoffNext]

/-- C7 (amended): under the default policy with every probe failing,
`await_up` sleeps the capped geometric schedule 1, 1.5, 2.25, 3.375, 5.0625,
7.59375 followed by twenty-four sleeps of 10 s, for a total of exactly
8345/32 = 260.78125 s (roughly 261 s), and then raises the "store
unavailable" error. -/
theorem await_up_exhausted_sleep_schedule :
    (await_up false (fun _ => false) 30 1 10).sleeps =
      [1, 3 / 2, 9 / 4, 27 / 8, 81 / 16, 243 / 32] ++ List.replicate 24 10 ∧
    ((await_up false (fun _ => false) 30 1 10).sleeps).sum = 8345 / 32 ∧
    (await_up false (fun _ => false) 30 1 10).result =
      .error (.unavailable 30) := by
  refine ⟨?_, ?_, rfl⟩ <;> norm_num [await_up, awaitLoop, backoffNext, List.replicate]

/-- C8: `get_messages` (with the store healthy) returns exactly the chat's
messages in ascending `created_at` order, and returns an empty sequence —
not an error — both when the chat exists with zero messages and when no chat
with that id exists (by referential integrity an absent chat has no
messages). -/
theorem get_messages_sorted_or_empty (σ : DBState) (chat_id : String)
    (hwf : WellFormed σ) :
    get_messages σ chat_id false = .ok ((messagesFor σ chat_id).map msgToWire) ∧
    (messagesFor σ chat_id).Sorted createdLE ∧
    (messagesFor σ chat_id).Perm (σ.messages.filter (fun m => m.chat_id == chat_id)) ∧
    (σ.messages.filter (fun m => m.chat_id == chat_id) = [] →
      get_messages σ chat_id false = .ok []) ∧
    (findChat σ chat_id = none → get_messages σ chat_id false = .ok []) := by
  refine ⟨rfl, List.sorted_insertionSort createdLE _, List.perm_insertionSort createdLE _,
    ?_, ?_⟩
  · intro h
    simp [get_messages, messagesFor, h, List.insertionSort]
  · intro h
    have hnone : ∀ c ∈ σ.chats, ¬((c.id == chat_id) = true) := by
      have h' : σ.chats.find? (fun c => c.id == chat_id) = none := h
      intro c hc
      have := List.find?_eq_none.mp h' c hc
      simpa using this
    have hfil : σ.messages.filter (fun m => m.chat_id == chat_id) = [] := by
      rw [List.filter_eq_nil_iff]
      intro m hm
      intro hmc
      rcases hwf m hm with ⟨c, hc, hcid⟩
      exact hnone c hc (by simpa [hcid] using hmc)
    simp [get_messages, messagesFor, hfil, List.insertionSort]

/-- Witness for C8 at a concrete well-formed store: one chat, no messages. -/
theorem get_messages_sorted_or_empty_witness :
    get_messages oneChatState "chat-1" false = .ok [] ∧
    get_messages oneChatState "missing" false = .ok [] := by
  have h1 := get_messages_sorted_or_empty oneChatState "chat-1" (by decide)
  have h2 := get_messages_sorted_or_empty oneChatState "missing" (by decide)
  exact ⟨h1.2.2.2.1 rfl, h2.2.2.2.2 rfl⟩

/-- C10: a successful `add_message` uses the single timestamp `now` captured
at entry for everything it writes and returns: the returned id is the floor
of that timestamp in milliseconds, the returned ISO string renders that same
timestamp, the inserted message row carries it as `created_at`, and the
parent chat's `updated_at` is set to it — so afterwards the chat's
`updated_at` equals the newest message's `created_at` exactly. -/
theorem add_message_single_timestamp (σ : DBState) (chat_id role content : String)
    (metadata : JValue) (now : Nat) (c : ChatRow)
    (hc : findChat σ chat_id = some c)
    (hpk : σ.messages.any (fun m => m.chat_id == chat_id && m.id == message_id_of now)
      = false) :
    add_message σ chat_id role content metadata now false false false =
      (.ok (message_id_of now, isoformat now),
        ⟨updateChatTimestamp σ.chats chat_id now,
          σ.messages ++ [⟨message_id_of now, chat_id, role, content, now, metadata⟩]⟩) ∧
    (findChat (add_message σ chat_id role content metadata now false false false).2
        chat_id) = some { c with updated_at := now } ∧
    ((add_message σ chat_id role content metadata now false false false).2.messages.getLast?)
      = some ⟨message_id_of now, chat_id, role, content, now, metadata⟩ ∧
    ({ c with updated_at := now } : ChatRow).updated_at =
      (⟨message_id_of now, chat_id, role, content, now, metadata⟩ : MessageRow).created_at := by
  have hmain : add_message σ chat_id role content metadata now false false false =
      (.ok (message_id_of now, isoformat now),
        ⟨updateChatTimestamp σ.chats chat_id now,
          σ.messages ++ [⟨message_id_of now, chat_id, role, content, now, metadata⟩]⟩) := by
    simp [add_message, get_chat, hc, hpk]
  refine ⟨hmain, ?_, ?_, rfl⟩
  · rw [hmain]
    exact find?_updateChatTimestamp σ.chats chat_id now c hc
  · rw [hmain]
    simp

/-- Witness for C10 at a concrete input. -/
theorem add_message_single_timestamp_witness :
    add_message oneChatState "chat-1" "user" "hi" JValue.null 1700000000000400
        false false false =
      (.ok (1700000000000, "2023-11-14T22:13:20.000400"),
        ⟨[⟨"chat-1", 1000000, 1700000000000400, JValue.null⟩],
          [⟨1700000000000, "chat-1", "user", "hi", 1700000000000400, JValue.null⟩]⟩) := by
  have h := (add_message_single_timestamp oneChatState "chat-1" "user" "hi" JValue.null
    1700000000000400 ⟨"chat-1", 1000000, 1000000, JValue.null⟩ rfl rfl).1
  rw [h]
  rfl

theorem hexVal_hexDigit (d : Nat) (h : d < 16) : hexVal (hexDigit d) = some d := by
  unfold hexVal hexDigit
  split_ifs <;> (try (exfalso; omega)) <;> (congr 1; omega)

theorem skipWs_cons_of_not (c : Nat) (t : List Nat) (h : isWs c = false) :
    skipWs (c :: t) = c :: t := by
  simp [skipWs, h]

theorem skipWs_all_append (pre l : List Nat) (h : pre.all isWs = true) :
    skipWs (pre ++ l) = skipWs l := by
  induction pre with
  | nil => rfl
  | cons c t ih =>
      simp only [List.all_cons, Bool.and_eq_true] at h
      simp [skipWs, h.1, ih h.2]

theorem parseStringBody_backslash (rest : List Nat) :
    parseStringBody (92 :: rest) = parseEscape rest := by
  rw [parseStringBody.eq_def]
  norm_num

theorem parseEscape_u (rest2 : List Nat) :
    parseEscape (117 :: rest2) = parseUEscape rest2 := by
  rw [parseEscape.eq_def]
  norm_num

theorem parseUEscape_hex4 (m : Nat) (hm : m < 65536) (rest3 : List Nat) :
    parseUEscape (hex4 m ++ rest3) =
      if 55296 ≤ m ∧ m ≤ 56319 then parseLowSurrogate m rest3
      else Option.map (fun p => (m :: p.1, p.2)) (parseStringBody rest3) := by
  have e1 := hexVal_hexDigit (m / 4096 % 16) (by omega)
  have e2 := hexVal_hexDigit (m / 256 % 16) (by omega)
  have e3 := hexVal_hexDigit (m / 16 % 16) (by omega)
  have e4 := hexVal_hexDigit (m % 16) (by omega)
  have hrec : m / 4096 % 16 * 4096 + m / 256 % 16 * 256 + m / 16 % 16 * 16 + m % 16 = m := by
    omega
  simp only [hex4, List.cons_append, List.nil_append]
  rw [parseUEscape.eq_def]
  norm_num [e1, e2, e3, e4, hrec]

theorem parseStringBody_u_bmp (n : Nat) (hn : n < 65536)
    (hns : ¬(55296 ≤ n ∧ n ≤ 56319)) (t : List Nat) :
    parseStringBody (92 :: 117 :: hex4 n ++ t) =
      Option.map (fun p => (n :: p.1, p.2)) (parseStringBody t) := by
  rw [show (92 :: 117 :: hex4 n ++ t) = 92 :: (117 :: (hex4 n ++ t)) by simp]
  rw [parseStringBody_backslash, parseEscape_u, parseUEscape_hex4 n hn, if_neg hns]

theorem parseLowSurrogate_pair (h lo : Nat) (hlo1 : 56320 ≤ lo) (hlo2 : lo ≤ 57343)
    (t : List Nat) :
    parseLowSurrogate h (92 :: 117 :: hex4 lo ++ t) =
      Option.map (fun p => ((65536 + (h - 55296) * 1024 + (lo - 56320)) :: p.1, p.2))
        (parseStringBody t) := by
  have f1 := hexVal_hexDigit (lo / 4096 % 16) (by omega)
  have f2 := hexVal_hexDigit (lo / 256 % 16) (by omega)
  have f3 := hexVal_hexDigit (lo / 16 % 16) (by omega)
  have f4 := hexVal_hexDigit (lo % 16) (by omega)
  have hrec : lo / 4096 % 16 * 4096 + lo / 256 % 16 * 256 + lo / 16 % 16 * 16 + lo % 16
      = lo := by omega
  simp only [hex4, List.cons_append, List.nil_append]
  rw [parseLowSurrogate.eq_def]
  norm_num [f1, f2, f3, f4, hrec, hlo1, hlo2]

theorem parseStringBody_u_pair (n : Nat) (h1 : 65536 ≤ n) (h2 : n < 1114112)
    (t : List Nat) :
    parseStringBody (92 :: 117 :: hex4 (55296 + (n - 65536) / 1024) ++
        92 :: 117 :: hex4 (56320 + (n - 65536) % 1024) ++ t) =
      Option.map (fun p => (n :: p.1, p.2)) (parseStringBody t) := by
  have hhi : 55296 + (n - 65536) / 1024 < 65536 := by omega
  rw [show (92 :: 117 :: hex4 (55296 + (n - 65536) / 1024) ++
      92 :: 117 :: hex4 (56320 + (n - 65536) % 1024) ++ t) =
      92 :: (117 :: (hex4 (55296 + (n - 65536) / 1024) ++
        (92 :: 117 :: hex4 (56320 + (n - 65536) % 1024) ++ t))) by simp]
  rw [parseStringBody_backslash, parseEscape_u, parseUEscape_hex4 _ hhi,
    if_pos (by constructor <;> omega)]
  rw [parseLowSurrogate_pair _ _ (by omega) (by omega)]
  have hfin : 65536 + (55296 + (n - 65536) / 1024 - 55296) * 1024 +
      (56320 + (n - 65536) % 1024 - 56320) = n := by omega
  rw [hfin]

theorem parseStringBody_plain (c : Nat) (h1 : ¬c = 34) (h2 : ¬c = 92) (t : List Nat) :
    parseStringBody (c :: t) = Option.map (fun p => (c :: p.1, p.2)) (parseStringBody t) := by
  rw [parseStringBody.eq_def]
  simp [h1, h2]

theorem parseEscape_code (e ec : Nat) (he : ¬e = 117) (hev : escapeCodeVal e = some ec)
    (rest : List Nat) :
    parseEscape (e :: rest) = Option.map (fun p => (ec :: p.1, p.2)) (parseStringBody rest) := by
  rw [parseEscape.eq_def]
  simp [he, hev]

theorem parseStringBody_escapeChar (c : Nat) (hc : validCp c = true) (t : List Nat) :
    parseStringBody (escapeChar c ++ t) =
      Option.map (fun p => (c :: p.1, p.2)) (parseStringBody t) := by
  simp only [validCp, Bool.and_eq_true, Bool.not_eq_true', Bool.and_eq_false_iff,
    decide_eq_true_eq, decide_eq_false_iff_not] at hc
  by_cases h34 : c = 34
  · have he : escapeChar c = [92, 34] := by simp [escapeChar, h34]
    rw [he, show ([92, 34] ++ t) = 92 :: (34 :: t) from rfl, parseStringBody_backslash,
      parseEscape_code 34 34 (by omega) (by simp [escapeCodeVal]), h34]
  · by_cases h92 : c = 92
    · have he : escapeChar c = [92, 92] := by simp [escapeChar, h34, h92]
      rw [he, show ([92, 92] ++ t) = 92 :: (92 :: t) from rfl, parseStringBody_backslash,
        parseEscape_code 92 92 (by omega) (by simp [escapeCodeVal]), h92]
    · by_cases h8 : c = 8
      · have he : escapeChar c = [92, 98] := by simp [escapeChar, h34, h92, h8]
        rw [he, show ([92, 98] ++ t) = 92 :: (98 :: t) from rfl, parseStringBody_backslash,
          parseEscape_code 98 8 (by omega) (by simp [escapeCodeVal]), h8]
      · by_cases h9 : c = 9
        · have he : escapeChar c = [92, 116] := by simp [escapeChar, h34, h92, h8, h9]
          rw [he, show ([92, 116] ++ t) = 92 :: (116 :: t) from rfl,
            parseStringBody_backslash,
            parseEscape_code 116 9 (by omega) (by simp [escapeCodeVal]), h9]
        · by_cases h10 : c = 10
          · have he : escapeChar c = [92, 110] := by simp [escapeChar, h34, h92, h8, h9, h10]
            rw [he, show ([92, 110] ++ t) = 92 :: (110 :: t) from rfl,
              parseStringBody_backslash,
              parseEscape_code 110 10 (by omega) (by simp [escapeCodeVal]), h10]
          · by_cases h12 : c = 12
            · have he : escapeChar c = [92, 102] := by
                simp [escapeChar, h34, h92, h8, h9, h10, h12]
              rw [he, show ([92, 102] ++ t) = 92 :: (102 :: t) from rfl,
                parseStringBody_backslash,
                parseEscape_code 102 12 (by omega) (by simp [escapeCodeVal]), h12]
            · by_cases h13 : c = 13
              · have he : escapeChar c = [92, 114] := by
                  simp [escapeChar, h34, h92, h8, h9, h10, h12, h13]
                rw [he, show ([92, 114] ++ t) = 92 :: (114 :: t) from rfl,
                  parseStringBody_backslash,
                  parseEscape_code 114 13 (by omega) (by simp [escapeCodeVal]), h13]
              · by_cases hctl : c < 32
                · have he : escapeChar c = 92 :: 117 :: hex4 c := by
                    simp [escapeChar, h34, h92, h8, h9, h10, h12, h13, hctl]
                  rw [he]
                  exact parseStringBody_u_bmp c (by omega) (by omega) t
                · by_cases hprint : c ≤ 126
                  · have he : escapeChar c = [c] := by
                      simp [escapeChar, h34, h92, h8, h9, h10, h12, h13, hctl, hprint]
                    rw [he, show ([c] ++ t) = c :: t from rfl]
                    exact parseStringBody_plain c h34 h92 t
                  · by_cases hbmp : c < 65536
                    · have he : escapeChar c = 92 :: 117 :: hex4 c := by
                        simp [escapeChar, h34, h92, h8, h9, h10, h12, h13, hctl, hprint, hbmp]
                      rw [he]
                      exact parseStringBody_u_bmp c (by omega) (by omega) t
                    · have he : escapeChar c = 92 :: 117 :: hex4 (55296 + (c - 65536) / 1024) ++
                          92 :: 117 :: hex4 (56320 + (c - 65536) % 1024) := by
                        simp [escapeChar, h34, h92, h8, h9, h10, h12, h13, hctl, hprint, hbmp]
                      rw [he, List.append_assoc]
                      have := parseStringBody_u_pair c (by omega) (by omega) t
                      simpa using this

theorem parseStringBody_escapeString (s : JStr) (hs : validStr s = true)
    (rest : List Nat) :
    parseStringBody (escapeString s ++ 34 :: rest) = some (s, rest) := by
  induction s with
  | nil =>
      rw [show (escapeString [] ++ 34 :: rest) = 34 :: rest by rfl]
      rw [parseStringBody.eq_def]
      norm_num
  | cons c s' ih =>
      simp only [validStr, List.all_cons, Bool.and_eq_true] at hs
      have hc := hs.1
      have hs' : validStr s' = true := hs.2
      rw [show (escapeString (c :: s') ++ 34 :: rest) =
        escapeChar c ++ (escapeString s' ++ 34 :: rest) by simp [escapeString]]
      rw [parseStringBody_escapeChar c hc, ih hs']
      rfl

theorem parseDigits_append (ds : List Nat) (acc : Nat) (rest : List Nat)
    (hds : ∀ d ∈ ds, isDigitCode d = true) (hrest : headNotDigit rest = true) :
    parseDigits acc (ds ++ rest) =
      (ds.foldl (fun a d => a * 10 + (d - 48)) acc, rest) := by
  induction ds generalizing acc with
  | nil =>
      cases rest with
      | nil => rfl
      | cons c t =>
          simp only [headNotDigit, Bool.not_eq_true'] at hrest
          simp [parseDigits, hrest]
  | cons d ds' ih =>
      have hd : isDigitCode d = true := hds d (by simp)
      simp only [List.cons_append, parseDigits, hd, if_true, List.foldl_cons]
      exact ih _ (fun x hx => hds x (by simp [hx]))

theorem foldr_eq_ofDigits (l : List Nat) :
    l.foldr (fun d a => a * 10 + d) 0 = Nat.ofDigits 10 l := by
  induction l with
  | nil => simp [Nat.ofDigits]
  | cons d t ih => simp [Nat.ofDigits_cons, ih]; ring

theorem foldl_encodeNat (n : Nat) :
    (encodeNat n).foldl (fun a d => a * 10 + (d - 48)) 0 = n := by
  unfold encodeNat
  by_cases h : n = 0
  · simp [h]
  · rw [if_neg h]
    have hlt : ∀ x ∈ Nat.digits 10 n, x < 10 :=
      fun x hx => Nat.digits_lt_base (by norm_num) hx
    rw [List.foldl_map]
    have hcong : (Nat.digits 10 n).reverse.foldl (fun a x => a * 10 + (48 + x - 48)) 0 =
        (Nat.digits 10 n).reverse.foldl (fun a x => a * 10 + x) 0 := by
      apply List.foldl_ext
      intro a x hx
      have : x < 10 := hlt x (List.mem_reverse.mp hx)
      omega
    rw [hcong, List.foldl_reverse]
    have : (Nat.digits 10 n).foldr (fun x y => y * 10 + x) 0 =
        (Nat.digits 10 n).foldr (fun d a => a * 10 + d) 0 := rfl
    rw [this, foldr_eq_ofDigits, Nat.ofDigits_digits]

theorem encodeNat_digits (n : Nat) : ∀ d ∈ encodeNat n, isDigitCode d = true := by
  unfold encodeNat
  by_cases h : n = 0
  · simp [h, isDigitCode]
  · rw [if_neg h]
    intro d hd
    obtain ⟨x, hx, rfl⟩ := List.mem_map.mp hd
    have : x < 10 := Nat.digits_lt_base (by norm_num) (List.mem_reverse.mp hx)
    simp only [isDigitCode, Bool.and_eq_true, decide_eq_true_eq]
    omega

theorem encodeNat_head : ∀ n, ∃ d t, encodeNat n = d :: t ∧ 48 ≤ d ∧ d ≤ 57 := by
  intro n
  have hne : encodeNat n ≠ [] := by
    unfold encodeNat
    by_cases h : n = 0
    · simp [h]
    · rw [if_neg h]
      simp [Nat.digits_ne_nil_iff_ne_zero, h]
  cases he : encodeNat n with
  | nil => exact absurd he hne
  | cons d t =>
      have hd : isDigitCode d = true := encodeNat_digits n d (by rw [he]; simp)
      simp only [isDigitCode, Bool.and_eq_true, decide_eq_true_eq] at hd
      exact ⟨d, t, rfl, hd.1, hd.2⟩

theorem parseDigits_encodeNat (n : Nat) (rest : List Nat)
    (hrest : headNotDigit rest = true) :
    parseDigits 0 (encodeNat n ++ rest) = (n, rest) := by
  rw [parseDigits_append _ _ _ (encodeNat_digits n) hrest, foldl_encodeNat]

theorem json_dumps_head (v : JValue) : ∃ c t, json_dumps v = c :: t ∧
    (c = 110 ∨ c = 116 ∨ c = 102 ∨ c = 34 ∨ c = 91 ∨ c = 123 ∨ c = 45 ∨
      (48 ≤ c ∧ c ≤ 57)) := by
  cases v with
  | null => exact ⟨110, [117, 108, 108], by simp [json_dumps], by tauto⟩
  | bool b =>
      cases b with
      | true => exact ⟨116, [114, 117, 101], by simp [json_dumps], by tauto⟩
      | false => exact ⟨102, [97, 108, 115, 101], by simp [json_dumps], by tauto⟩
  | int i =>
      by_cases hneg : i < 0
      · refine ⟨45, encodeNat i.natAbs, ?_, by tauto⟩
        simp [json_dumps, encodeInt, hneg]
      · obtain ⟨d, t, hdt, h48, h57⟩ := encodeNat_head i.natAbs
        refine ⟨d, t, ?_, by tauto⟩
        simp [json_dumps, encodeInt, hneg, hdt]
  | str s => exact ⟨34, escapeString s ++ [34], by simp [json_dumps], by tauto⟩
  | arr xs => exact ⟨91, dumpsElems xs ++ [93], by simp [json_dumps], by tauto⟩
  | obj kvs => exact ⟨123, dumpsFields kvs ++ [125], by simp [json_dumps], by tauto⟩

theorem skipWs_json_dumps (v : JValue) (rest : List Nat) :
    skipWs (json_dumps v ++ rest) = json_dumps v ++ rest := by
  obtain ⟨c, t, he, hd⟩ := json_dumps_head v
  rw [he, List.cons_append]
  apply skipWs_cons_of_not
  simp only [isWs, Bool.or_eq_false_iff, decide_eq_false_iff_not]
  omega

theorem dumpsElems_cons (x : JValue) (t : List JValue) :
    ∃ u, dumpsElems (x :: t) = json_dumps x ++ u := by
  cases t with
  | nil => exact ⟨[], by simp [dumpsElems]⟩
  | cons y t' => exact ⟨44 :: 32 :: dumpsElems (y :: t'), by simp [dumpsElems]⟩

theorem jdepth_pos (v : JValue) : 1 ≤ jdepth v := by
  cases v <;> simp [jdepth]

theorem edepth_pos (xs : List JValue) (h : xs ≠ []) : 1 ≤ edepth xs := by
  cases xs with
  | nil => contradiction
  | cons x t => cases t <;> simp [edepth]

theorem fdepth_pos (kvs : List (JStr × JValue)) (h : kvs ≠ []) : 1 ≤ fdepth kvs := by
  cases kvs with
  | nil => contradiction
  | cons kv t =>
      obtain ⟨k, v⟩ := kv
      cases t <;> simp [fdepth]

theorem parse_json_dumps (fuel : Nat) :
    (∀ v pre rest, pre.all isWs = true → validJ v = true → headNotDigit rest = true →
      jdepth v ≤ fuel →
      parseValue fuel (pre ++ (json_dumps v ++ rest)) = some (v, rest)) ∧
    (∀ xs pre rest, pre.all isWs = true → validElems xs = true → xs ≠ [] →
      edepth xs ≤ fuel →
      parseElems fuel (pre ++ (dumpsElems xs ++ 93 :: rest)) = some (xs, rest)) ∧
    (∀ kvs pre rest, pre.all isWs = true → validFields kvs = true → kvs ≠ [] →
      fdepth kvs ≤ fuel →
      parseFields fuel (pre ++ (dumpsFields kvs ++ 125 :: rest)) = some (kvs, rest)) := by
  induction fuel with
  | zero =>
      refine ⟨fun v _ _ _ _ _ hd => absurd hd ?_, fun xs _ _ _ _ hne hd => absurd hd ?_,
        fun kvs _ _ _ _ hne hd => absurd hd ?_⟩
      · have := jdepth_pos v; omega
      · have := edepth_pos xs hne; omega
      · have := fdepth_pos kvs hne; omega
  | succ fuel ih =>
      obtain ⟨ihV, ihE, ihF⟩ := ih
      have hA : ∀ v pre rest, pre.all isWs = true → validJ v = true →
          headNotDigit rest = true → jdepth v ≤ fuel + 1 →
          parseValue (fuel + 1) (pre ++ (json_dumps v ++ rest)) = some (v, rest) := by
        intro v pre rest hpre hval hrest hdep
        have hsk : skipWs (pre ++ (json_dumps v ++ rest)) = json_dumps v ++ rest := by
          rw [skipWs_all_append pre _ hpre, skipWs_json_dumps]
        rw [parseValue.eq_def]
        cases v with
        | null =>
            have hd : json_dumps JValue.null ++ rest = 110 :: 117 :: 108 :: 108 :: rest := by
              simp [json_dumps]
            simp [hsk.trans hd]
        | bool b =>
            cases b with
            | true =>
                have hd : json_dumps (JValue.bool true) ++ rest =
                    116 :: 114 :: 117 :: 101 :: rest := by simp [json_dumps]
                simp [hsk.trans hd]
            | false =>
                have hd : json_dumps (JValue.bool false) ++ rest =
                    102 :: 97 :: 108 :: 115 :: 101 :: rest := by simp [json_dumps]
                simp [hsk.trans hd]
        | str s =>
            have hd : json_dumps (JValue.str s) ++ rest =
                34 :: (escapeString s ++ 34 :: rest) := by simp [json_dumps]
            have hvs : validStr s = true := by simpa [validJ] using hval
            simp [hsk.trans hd, parseStringBody_escapeString s hvs rest]
        | int i =>
            by_cases hneg : i < 0
            · obtain ⟨d, t, hdt, h48, h57⟩ := encodeNat_head i.natAbs
              have hd : json_dumps (JValue.int i) ++ rest =
                  45 :: (encodeNat i.natAbs ++ rest) := by
                simp [json_dumps, encodeInt, hneg]
              have hdigit : isDigitCode d = true := by
                simp only [isDigitCode, Bool.and_eq_true, decide_eq_true_eq]
                omega
              have hpd : parseDigits 0 (d :: (t ++ rest)) = (i.natAbs, rest) := by
                rw [← List.cons_append, ← hdt]
                exact parseDigits_encodeNat _ _ hrest
              have hcast : -((i.natAbs : Nat) : Int) = i := by omega
              simp [hsk.trans hd, hdt, hdigit, hpd, hcast]
              simp [abs_of_neg hneg]
            · obtain ⟨d, t, hdt, h48, h57⟩ := encodeNat_head i.natAbs
              have hd : json_dumps (JValue.int i) ++ rest = encodeNat i.natAbs ++ rest := by
                simp [json_dumps, encodeInt, hneg]
              have hdigit : isDigitCode d = true := by
                simp only [isDigitCode, Bool.and_eq_true, decide_eq_true_eq]
                omega
              have hpd : parseDigits 0 (d :: (t ++ rest)) = (i.natAbs, rest) := by
                rw [← List.cons_append, ← hdt]
                exact parseDigits_encodeNat _ _ hrest
              have hcast : ((i.natAbs : Nat) : Int) = i := by omega
              simp [hsk.trans hd, hdt, hdigit, hpd, hcast,
                show ¬d = 110 by omega, show ¬d = 116 by omega,
                show ¬d = 102 by omega, show ¬d = 34 by omega,
                show ¬d = 91 by omega, show ¬d = 123 by omega,
                show ¬d = 45 by omega]
        | arr xs =>
            cases xs with
            | nil =>
                have hd : json_dumps (JValue.arr []) ++ rest = 91 :: (93 :: rest) := by
                  simp [json_dumps, dumpsElems]
                have h93 : skipWs (93 :: rest) = 93 :: rest :=
                  skipWs_cons_of_not 93 rest (by simp [isWs])
                simp [hsk.trans hd, h93]
            | cons x t =>
                have hd : json_dumps (JValue.arr (x :: t)) ++ rest =
                    91 :: (dumpsElems (x :: t) ++ 93 :: rest) := by simp [json_dumps]
                replace hsk := hsk.trans hd
                obtain ⟨u, hu⟩ := dumpsElems_cons x t
                obtain ⟨c0, t0, hc0, hc0d⟩ := json_dumps_head x
                have hsk2 : skipWs (dumpsElems (x :: t) ++ 93 :: rest) =
                    dumpsElems (x :: t) ++ 93 :: rest := by
                  rw [hu, List.append_assoc, skipWs_json_dumps]
                have hcons2 : dumpsElems (x :: t) ++ 93 :: rest =
                    c0 :: (t0 ++ u ++ 93 :: rest) := by
                  rw [hu, hc0]
                  simp
                have hval2 : validElems (x :: t) = true := by simpa [validJ] using hval
                have hdep2 : edepth (x :: t) ≤ fuel := by
                  have : jdepth (JValue.arr (x :: t)) = 1 + edepth (x :: t) := by
                    simp [jdepth]
                  omega
                have hres := ihE (x :: t) [] rest (by simp) hval2 (by simp) hdep2
                simp only [List.nil_append] at hres
                have hne93 : ¬c0 = 93 := by omega
                have hstep : parseElems fuel (c0 :: (t0 ++ (u ++ 93 :: rest))) =
                    some (x :: t, rest) := by rw [← List.append_assoc, ← hcons2, hres]
                simp [hsk, hsk2.trans hcons2, hstep, hne93]
        | obj kvs =>
            cases kvs with
            | nil =>
                have hd : json_dumps (JValue.obj []) ++ rest = 123 :: (125 :: rest) := by
                  simp [json_dumps, dumpsFields]
                have h125 : skipWs (125 :: rest) = 125 :: rest :=
                  skipWs_cons_of_not 125 rest (by simp [isWs])
                simp [hsk.trans hd, h125]
            | cons kv t =>
                obtain ⟨k, w⟩ := kv
                have hd : json_dumps (JValue.obj ((k, w) :: t)) ++ rest =
                    123 :: (dumpsFields ((k, w) :: t) ++ 125 :: rest) := by
                  simp [json_dumps]
                replace hsk := hsk.trans hd
                have hfhead : ∃ u, dumpsFields ((k, w) :: t) = 34 :: u := by
                  cases t with
                  | nil => exact ⟨escapeString k ++ 34 :: 58 :: 32 :: json_dumps w,
                      by simp [dumpsFields]⟩
                  | cons f t' => exact ⟨escapeString k ++ 34 :: 58 :: 32 :: json_dumps w ++
                      44 :: 32 :: dumpsFields (f :: t'), by simp [dumpsFields]⟩
                obtain ⟨u, hu⟩ := hfhead
                have hcons2 : dumpsFields ((k, w) :: t) ++ 125 :: rest =
                    34 :: (u ++ 125 :: rest) := by rw [hu]; simp
                have hsk2 : skipWs (dumpsFields ((k, w) :: t) ++ 125 :: rest) =
                    dumpsFields ((k, w) :: t) ++ 125 :: rest := by
                  rw [hcons2]
                  exact skipWs_cons_of_not 34 _ (by simp [isWs])
                have hval2 : validFields ((k, w) :: t) = true := by
                  simpa [validJ] using hval
                have hdep2 : fdepth ((k, w) :: t) ≤ fuel := by
                  have : jdepth (JValue.obj ((k, w) :: t)) = 1 + fdepth ((k, w) :: t) := by
                    simp [jdepth]
                  omega
                have hres := ihF ((k, w) :: t) [] rest (by simp) hval2 (by simp) hdep2
                simp only [List.nil_append] at hres
                have hstep : parseFields fuel (34 :: (u ++ 125 :: rest)) =
                    some ((k, w) :: t, rest) := by rw [← hcons2, hres]
                simp [hsk, hsk2.trans hcons2, hstep]
      refine ⟨hA, ?_, ?_⟩
      · intro xs pre rest hpre hval hne hdep
        cases xs with
        | nil => contradiction
        | cons x t =>
            have hvx : validJ x = true := by
              simp only [validElems, Bool.and_eq_true] at hval
              exact hval.1
            have hvt : validElems t = true := by
              simp only [validElems, Bool.and_eq_true] at hval
              exact hval.2
            rw [parseElems.eq_def]
            cases t with
            | nil =>
                have hd0 : dumpsElems [x] = json_dumps x := by simp [dumpsElems]
                have hdx : jdepth x ≤ fuel := by
                  have he : edepth [x] = 1 + jdepth x := by simp [edepth]
                  omega
                have hres := ihV x pre (93 :: rest) hpre hvx
                  (by simp [headNotDigit, isDigitCode]) hdx
                simp [hd0, hres, skipWs_cons_of_not 93 rest (by simp [isWs])]
            | cons y t' =>
                have hd1 : dumpsElems (x :: y :: t') ++ 93 :: rest =
                    json_dumps x ++ (44 :: 32 :: (dumpsElems (y :: t') ++ 93 :: rest)) := by
                  simp [dumpsElems]
                have hdep1 : edepth (x :: y :: t') ≤ fuel + 1 := hdep
                have he : edepth (x :: y :: t') =
                    1 + max (jdepth x) (edepth (y :: t')) := by simp [edepth]
                have hdx : jdepth x ≤ fuel := by
                  have := Nat.max_le.mp (show max (jdepth x) (edepth (y :: t')) ≤ fuel by
                    omega)
                  exact this.1
                have hdyt : edepth (y :: t') ≤ fuel := by
                  have := Nat.max_le.mp (show max (jdepth x) (edepth (y :: t')) ≤ fuel by
                    omega)
                  exact this.2
                have hres1 := ihV x pre (44 :: 32 :: (dumpsElems (y :: t') ++ 93 :: rest))
                  hpre hvx (by simp [headNotDigit, isDigitCode]) hdx
                have hres2 := ihE (y :: t') [32] rest (by simp [isWs]) hvt (by simp) hdyt
                simp only [List.singleton_append, List.cons_append, List.nil_append] at hres2
                simp [hd1, hres1, skipWs_cons_of_not 44 _ (by simp [isWs]), hres2]
      · intro kvs pre rest hpre hval hne hdep
        cases kvs with
        | nil => contradiction
        | cons kv t =>
            obtain ⟨k, w⟩ := kv
            have hvk : validStr k = true := by
              simp only [validFields, Bool.and_eq_true] at hval
              exact hval.1.1
            have hvw : validJ w = true := by
              simp only [validFields, Bool.and_eq_true] at hval
              exact hval.1.2
            have hvt : validFields t = true := by
              simp only [validFields, Bool.and_eq_true] at hval
              exact hval.2
            rw [parseFields.eq_def]
            cases t with
            | nil =>
                have hd0 : dumpsFields [(k, w)] ++ 125 :: rest =
                    34 :: (escapeString k ++
                      34 :: 58 :: 32 :: (json_dumps w ++ 125 :: rest)) := by
                  simp [dumpsFields]
                have hsk0 : skipWs (pre ++ (dumpsFields [(k, w)] ++ 125 :: rest)) =
                    34 :: (escapeString k ++
                      34 :: 58 :: 32 :: (json_dumps w ++ 125 :: rest)) := by
                  rw [skipWs_all_append pre _ hpre, hd0]
                  exact skipWs_cons_of_not 34 _ (by simp [isWs])
                have hdw : jdepth w ≤ fuel := by
                  have hf : fdepth [(k, w)] = 1 + jdepth w := by simp [fdepth]
                  omega
                have hstr := parseStringBody_escapeString k hvk
                  (58 :: 32 :: (json_dumps w ++ 125 :: rest))
                have hres := ihV w [32] (125 :: rest) (by simp [isWs]) hvw
                  (by simp [headNotDigit, isDigitCode]) hdw
                simp only [List.singleton_append, List.cons_append, List.nil_append] at hres
                simp [hsk0, hstr, hres, skipWs_cons_of_not 58 _ (by simp [isWs]),
                  skipWs_cons_of_not 125 _ (by simp [isWs])]
            | cons f t' =>
                have hd0 : dumpsFields ((k, w) :: f :: t') ++ 125 :: rest =
                    34 :: (escapeString k ++ 34 :: 58 :: 32 :: (json_dumps w ++
                      (44 :: 32 :: (dumpsFields (f :: t') ++ 125 :: rest)))) := by
                  simp [dumpsFields]
                have hsk0 : skipWs (pre ++ (dumpsFields ((k, w) :: f :: t') ++ 125 :: rest)) =
                    34 :: (escapeString k ++ 34 :: 58 :: 32 :: (json_dumps w ++
                      (44 :: 32 :: (dumpsFields (f :: t') ++ 125 :: rest)))) := by
                  rw [skipWs_all_append pre _ hpre, hd0]
                  exact skipWs_cons_of_not 34 _ (by simp [isWs])
                have hf : fdepth ((k, w) :: f :: t') =
                    1 + max (jdepth w) (fdepth (f :: t')) := by simp [fdepth]
                have hdw : jdepth w ≤ fuel := by
                  have := Nat.max_le.mp (show max (jdepth w) (fdepth (f :: t')) ≤ fuel by
                    omega)
                  exact this.1
                have hdft : fdepth (f :: t') ≤ fuel := by
                  have := Nat.max_le.mp (show max (jdepth w) (fdepth (f :: t')) ≤ fuel by
                    omega)
                  exact this.2
                have hstr := parseStringBody_escapeString k hvk
                  (58 :: 32 :: (json_dumps w ++
                    (44 :: 32 :: (dumpsFields (f :: t') ++ 125 :: rest))))
                have hres1 := ihV w [32]
                  (44 :: 32 :: (dumpsFields (f :: t') ++ 125 :: rest)) (by simp [isWs]) hvw
                  (by simp [headNotDigit, isDigitCode]) hdw
                simp only [List.singleton_append, List.cons_append, List.nil_append] at hres1
                have hres2 := ihF (f :: t') [32] rest (by simp [isWs]) hvt (by simp) hdft
                simp only [List.singleton_append, List.cons_append, List.nil_append] at hres2
                simp [hsk0, hstr, hres1, hres2, skipWs_cons_of_not 58 _ (by simp [isWs]),
                  skipWs_cons_of_not 44 _ (by simp [isWs])]

theorem json_dumps_length_pos (v : JValue) : 1 ≤ (json_dumps v).length := by
  obtain ⟨c, t, he, _⟩ := json_dumps_head v
  simp [he]

theorem jvalue_sizeOf_pos (v : JValue) : 1 ≤ sizeOf v := by
  cases v <;> simp

theorem depth_le_length_aux (N : Nat) :
    (∀ v : JValue, sizeOf v ≤ N → jdepth v ≤ (json_dumps v).length) ∧
    (∀ xs : List JValue, sizeOf xs ≤ N → edepth xs ≤ (dumpsElems xs).length + 1) ∧
    (∀ kvs : List (JStr × JValue), sizeOf kvs ≤ N →
      fdepth kvs ≤ (dumpsFields kvs).length + 1) := by
  induction N with
  | zero =>
      refine ⟨fun v hv => absurd hv ?_, fun xs hxs => absurd hxs ?_,
        fun kvs hkvs => absurd hkvs ?_⟩
      · have := jvalue_sizeOf_pos v
        omega
      · cases xs <;> simp
      · cases kvs <;> simp
  | succ N ihN =>
      obtain ⟨ihv, ihe, ihf⟩ := ihN
      refine ⟨?_, ?_, ?_⟩
      · intro v hv
        cases v with
        | null => simp [jdepth, json_dumps]
        | bool b => cases b <;> simp [jdepth, json_dumps]
        | int i =>
            have := json_dumps_length_pos (JValue.int i)
            simp only [jdepth]
            omega
        | str s => simp [jdepth, json_dumps]
        | arr xs =>
            simp only [JValue.arr.sizeOf_spec] at hv
            have hxs := ihe xs (by omega)
            simp only [jdepth, json_dumps, List.length_cons, List.length_append]
            simp only [List.length_cons, List.length_nil]
            omega
        | obj kvs =>
            simp only [JValue.obj.sizeOf_spec] at hv
            have hkvs := ihf kvs (by omega)
            simp only [jdepth, json_dumps, List.length_cons, List.length_append]
            simp only [List.length_cons, List.length_nil]
            omega
      · intro xs hxs
        cases xs with
        | nil => simp [edepth]
        | cons x t =>
            simp only [List.cons.sizeOf_spec] at hxs
            have hx1 := jvalue_sizeOf_pos x
            cases t with
            | nil =>
                have hx := ihv x (by omega)
                simp only [edepth, dumpsElems]
                omega
            | cons y t' =>
                have hx := ihv x (by omega)
                have hsy : 1 ≤ sizeOf (y :: t') := by
                  simp only [List.cons.sizeOf_spec]
                  omega
                have hyt := ihe (y :: t') (by omega)
                simp only [edepth, dumpsElems, List.length_append, List.length_cons]
                omega
      · intro kvs hkvs
        cases kvs with
        | nil => simp [fdepth]
        | cons kv t =>
            obtain ⟨k, w⟩ := kv
            simp only [List.cons.sizeOf_spec, Prod.mk.sizeOf_spec] at hkvs
            have hw1 := jvalue_sizeOf_pos w
            cases t with
            | nil =>
                have hw := ihv w (by omega)
                simp only [fdepth, dumpsFields, List.length_cons, List.length_append]
                omega
            | cons f t' =>
                have hw := ihv w (by omega)
                have hft := ihf (f :: t') (by omega)
                simp only [fdepth, dumpsFields, List.length_cons, List.length_append]
                omega

theorem jdepth_le_length (v : JValue) : jdepth v ≤ (json_dumps v).length :=
  (depth_le_length_aux (sizeOf v)).1 v le_rfl

/-- C9: for every valid metadata map (a `JValue` whose strings consist of
Unicode scalar values), decoding the structured-document blob produced by
encoding it yields the value again: `json_loads (json_dumps v) = some v`.
The metadata stored by `create_chat`/`add_message` via `json.dumps` and
decoded by `get_chat`/`get_messages` via `json.loads` therefore round-trips
losslessly. -/
theorem json_loads_json_dumps (v : JValue) (hv : validJ v = true) :
    json_loads (json_dumps v) = some v := by
  unfold json_loads
  have hA := (parse_json_dumps ((json_dumps v).length + 1)).1 v [] [] rfl hv rfl
    (by have := jdepth_le_length v; omega)
  simp only [List.nil_append, List.append_nil] at hA
  rw [hA]
  simp [skipWs]

/-- Witness for C9 at a concrete metadata map holding a non-ASCII string, a
supplementary-plane character, escapes, a negative integer, arrays and a
nested empty object. -/
theorem json_loads_json_dumps_witness :
    validJ exampleMetadata = true ∧
    json_loads (json_dumps exampleMetadata) = some exampleMetadata :=
  ⟨rfl, json_loads_json_dumps exampleMetadata rfl⟩
